import Mathlib

/-!
Verification of the sandboxed workspace file-access subsystem of `nanobot`
(`src/nanobot/agent/tools/filesystem.py`): path resolution with a sandbox
boundary, read/write/edit/list operations, and the similarity diagnostic
produced when an exact-text edit fails.

Modelling conventions:
* A filesystem path is a list of name components below the root; raw
  caller-supplied paths distinguish absolute paths, relative paths, and
  paths beginning with the home marker (Python `~`).
* `Path.resolve()` is modelled lexically (`.` and `..` elimination); the
  filesystem is taken symlink-free, which the spec records as an accepted
  environmental limitation.
* Text content is a list of characters (Python `str` is a sequence of
  code points).  The filesystem is an association list from resolved
  absolute paths to nodes; the head entry shadows later ones.
* Python exceptions are an explicit `Except` layer: each tool `execute`
  is the literal try/except wrapper around a body that can raise, so
  "no exception escapes" is a statement about the wrapper, not a typing
  triviality.
-/

/-- An absolute, component-wise filesystem path (the parts below root). -/
structure AbsPath where
  comps : List String
deriving DecidableEq, Repr

/-- A raw caller-supplied path: absolute, relative, or rooted at `~`
(Python `expanduser` expands a leading `~`; the `~user` form is not
modelled). -/
inductive RawPath where
  | abs (comps : List String)
  | rel (comps : List String)
  | home (comps : List String)
deriving DecidableEq, Repr

/-- Ambient process state used by path resolution: the invoking user's
home directory and the current working directory. -/
structure Env where
  home : AbsPath
  cwd : AbsPath
deriving DecidableEq, Repr

/-- Lexical normalization of a component list: `.` is dropped, `..` pops
the previous component (at the root it stays at the root, as POSIX
`resolve` does). -/
def normAux (acc : List String) : List String → List String
  | [] => acc
  | c :: rest =>
    if c = "." then normAux acc rest
    else if c = ".." then normAux acc.dropLast rest
    else normAux (acc ++ [c]) rest

/-- Normalize a component list (model of `Path.resolve()`'s lexical part). -/
def normComps (l : List String) : List String :=
  normAux [] l

/-- The `PermissionError` raised by `_resolve_path`: its message names the
raw offending path and the configured boundary. -/
structure PermError where
  offending : RawPath
  boundary : AbsPath
deriving DecidableEq, Repr

/-- `Path(path).expanduser()` followed by the workspace join of
`_resolve_path`: a `~` path expands to home (and is then absolute, so it
is never joined onto the workspace); a relative path joins the workspace
when one is configured, else the process cwd (what `Path.resolve()` does
to a relative path). -/
def expandAndJoin (env : Env) (raw : RawPath) (ws : Option AbsPath) : List String :=
  match raw with
  | .abs cs => cs
  | .home cs => env.home.comps ++ cs
  | .rel cs =>
    match ws with
    | some w => w.comps ++ cs
    | none => env.cwd.comps ++ cs

/-- Model of `_resolve_path(path, workspace, allowed_dir)`: expand and
join, normComps, then require the normalized result to be equal to or a
descendant of the normalized allowed directory (`Path.relative_to` on two
absolute paths is exactly a component-prefix test). -/
def resolvePath (env : Env) (raw : RawPath) (ws : Option AbsPath)
    (allowed : Option AbsPath) : Except PermError AbsPath :=
  let r := normComps (expandAndJoin env raw ws)
  match allowed with
  | none => Except.ok ⟨r⟩
  | some b =>
    if (normComps b.comps).isPrefixOf r then Except.ok ⟨r⟩
    else Except.error ⟨raw, b⟩

/-- A filesystem node: a text file with decoded content, or a directory. -/
inductive Node where
  | file (content : List Char)
  | dir
deriving DecidableEq, Repr

/-- The filesystem: an association list from resolved absolute paths to
nodes; the first matching entry wins. -/
abbrev FS := List (AbsPath × Node)

/-- Look a path up in the filesystem. -/
def fsLookup (fs : FS) (p : AbsPath) : Option Node :=
  match fs with
  | [] => none
  | e :: rest => if e.1 = p then some e.2 else fsLookup rest p

/-- Create or overwrite a node (model of `write_text`, the head entry
shadowing any older one). -/
def fsInsert (fs : FS) (p : AbsPath) (n : Node) : FS :=
  (p, n) :: fs

/-- The Python exceptions the modelled bodies can raise. -/
inductive PyExc where
  | permissionError (e : PermError)
  | isADirectoryError (p : AbsPath)
deriving DecidableEq, Repr

/-- Python `pat in s` on strings (`List.isPrefixOf` at each suffix; the
empty pattern is contained in every string). -/
def occursIn (pat : List Char) : List Char → Bool
  | [] => pat.isEmpty
  | c :: rest => pat.isPrefixOf (c :: rest) || occursIn pat rest

/-- Worker for `countOcc` on a non-empty pattern: scan left to right,
a match consuming its text.  Structural on `fuel`; any `fuel ≥ s.length`
gives the scan's true value, since each step consumes at least one
character of `s`. -/
def countOccPos (pat : List Char) : Nat → List Char → Nat
  | _, [] => 0
  | 0, _ :: _ => 0
  | fuel + 1, c :: rest =>
    if pat.isPrefixOf (c :: rest) then
      1 + countOccPos pat fuel (rest.drop (pat.length - 1))
    else
      countOccPos pat fuel rest

/-- Python `s.count(pat)`: non-overlapping occurrences scanned from the
left, each match consuming its text; `s.count("")` is `len(s) + 1`. -/
def countOcc (s pat : List Char) : Nat :=
  match pat with
  | [] => s.length + 1
  | _ :: _ => countOccPos pat s.length s

/-- Python `s.replace(pat, new, 1)`: replace the leftmost occurrence;
with an empty pattern, `new` is inserted in front. -/
def replaceOne : List Char → List Char → List Char → List Char
  | s, [], new => new ++ s
  | [], _ :: _, _ => []
  | c :: rest, p :: ps, new =>
    if (p :: ps).isPrefixOf (c :: rest) then
      new ++ rest.drop ps.length
    else
      c :: replaceOne rest (p :: ps) new

/-- The characters Python `str.splitlines` treats as line terminators
(besides the two-character terminator `\r\n`). -/
def lineBreakChar (c : Char) : Bool :=
  c = '\n' || c = '\r' || c = '\x0b' || c = '\x0c' ||
  c = '\x1c' || c = '\x1d' || c = '\x1e' || c = '\x85' ||
  c = '\u2028' || c = '\u2029'

/-- Worker for `splitLinesKeepEnds`; `acc` is the current (reversed)
incomplete line. -/
def splitAux (acc : List Char) : List Char → List (List Char)
  | [] => if acc.isEmpty then [] else [acc.reverse]
  | '\r' :: '\n' :: rest => (acc.reverse ++ ['\r', '\n']) :: splitAux [] rest
  | c :: rest =>
    if lineBreakChar c then (acc.reverse ++ [c]) :: splitAux [] rest
    else splitAux (c :: acc) rest

/-- Python `s.splitlines(keepends=True)`: lines with their terminators
kept; a final fragment with no terminator forms the last line; the empty
string yields no lines. -/
def splitLinesKeepEnds (s : List Char) : List (List Char) :=
  splitAux [] s

/-- Length of the longest common prefix of two line sequences (lines are
compared atomically, as `difflib` compares the elements of its input
sequences). -/
def commonPrefixLen : List (List Char) → List (List Char) → Nat
  | x :: xs, y :: ys => if x = y then 1 + commonPrefixLen xs ys else 0
  | _, _ => 0

/-- `difflib.SequenceMatcher.find_longest_match` over whole sequences
(no junk parameter is passed; `autojunk`, which difflib applies only to
second sequences of at least 200 elements, is not modelled): the longest block
`(i, j, k)` with `a[i:i+k] = b[j:j+k]`, ties going to the smallest `i`
and then the smallest `j`; `(0, 0, 0)` when nothing matches. -/
def findLongestMatch (a b : List (List Char)) : Nat × Nat × Nat :=
  ((List.range a.length).flatMap fun i =>
      (List.range b.length).map fun j => (i, j)).foldl
    (fun best pq =>
      let k := commonPrefixLen (a.drop pq.1) (b.drop pq.2)
      if best.2.2 < k then (pq.1, pq.2, k) else best)
    (0, 0, 0)

/-- Fuelled worker for `matchedSize` (the fuel in `matchedSize` always
suffices: each recursive call strictly shrinks the combined length). -/
def matchedSizeF : Nat → List (List Char) → List (List Char) → Nat
  | 0, _, _ => 0
  | fuel + 1, a, b =>
    let m := findLongestMatch a b
    if m.2.2 = 0 then 0
    else
      matchedSizeF fuel (a.take m.1) (b.take m.2.1) + m.2.2 +
        matchedSizeF fuel (a.drop (m.1 + m.2.2)) (b.drop (m.2.1 + m.2.2))

/-- Total size of the matching blocks of `difflib.get_matching_blocks`:
the longest match, plus (recursively) the matches to its left and to its
right. -/
def matchedSize (a b : List (List Char)) : Nat :=
  matchedSizeF (a.length + b.length + 1) a b

/-- `difflib.SequenceMatcher.ratio()` as an exact rational:
`2 * M / T` with `M` the matched-element total and `T` the combined
length; `1` when both sequences are empty. -/
def ratioQ (a b : List (List Char)) : ℚ :=
  if a.length + b.length = 0 then 1
  else (2 * (matchedSize a b : ℚ)) / ((a.length + b.length : Nat) : ℚ)

/-- The file-line window of `oldLines.length` lines starting at line
index `i` (`lines[i : i + window]`). -/
def simWindow (oldLines lines : List (List Char)) (i : Nat) : List (List Char) :=
  (lines.drop i).take oldLines.length

/-- Number of candidate start indices the matcher examines:
`max(1, len(lines) - window + 1)` (truncated subtraction coincides with
Python's `max` against negative values). -/
def simCandidates (oldLines lines : List (List Char)) : Nat :=
  max 1 (lines.length - oldLines.length + 1)

/-- The scan of the similarity loop: fold over `i = 0, …, n-1`, starting
from ratio `0.0` at index `0` and updating only on a strict improvement,
so the earliest window attaining the maximum is kept. -/
def bestScan (f : Nat → ℚ) : Nat → ℚ × Nat
  | 0 => (0, 0)
  | n + 1 =>
    let best := bestScan f n
    if best.1 < f n then (f n, n) else best

/-- The `(best_ratio, best_start)` pair computed by
`EditFileTool._not_found_message`'s loop. -/
def simScan (oldLines lines : List (List Char)) : ℚ × Nat :=
  bestScan (fun i => ratioQ oldLines (simWindow oldLines lines i))
    (simCandidates oldLines lines)

/-- Result of `ReadFileTool.execute`, structured: the full content, or
one of the converted error strings. -/
inductive ReadOutcome where
  | content (c : List Char)
  | notFound (p : RawPath)
  | notAFile (p : RawPath)
  | errPerm (e : PermError)
  | errOther (e : PyExc)
deriving DecidableEq, Repr

/-- Result of `WriteFileTool.execute`: on success the reported count is
`len(content)` — the number of characters of the content, which the
message labels "bytes" — together with the resolved path the message
names. -/
inductive WriteOutcome where
  | wrote (reported : Nat) (fp : AbsPath)
  | errPerm (e : PermError)
  | errOther (e : PyExc)
deriving DecidableEq, Repr

/-- Result of `EditFileTool.execute`, structured.  `noMatchDiff` carries
the fields of the not-found diagnostic that renders a unified diff: the
best ratio (formatted as a percentage in the real message), the 1-based
line number `best_start + 1` the diff is labeled with, and the two line
sequences the diff compares (`old_text`'s lines against the best
window). -/
inductive EditOutcome where
  | edited (fp : AbsPath)
  | fileNotFound (p : RawPath)
  | ambiguous (count : Nat)
  | noMatchDiff (p : RawPath) (r : ℚ) (lineNo : Nat)
      (fromLines toLines : List (List Char))
  | noMatchNoSimilar (p : RawPath)
  | errPerm (e : PermError)
  | errOther (e : PyExc)
deriving DecidableEq, Repr

/-- Result of `ListDirTool.execute`: the sorted `(name, is_dir)` entries,
the explicit empty marker, or a converted error. -/
inductive ListOutcome where
  | entries (items : List (String × Bool))
  | emptyDir (p : RawPath)
  | notFound (p : RawPath)
  | notADir (p : RawPath)
  | errPerm (e : PermError)
  | errOther (e : PyExc)
deriving DecidableEq, Repr

/-- `EditFileTool._not_found_message`: scan every window for the best
similarity; above the `0.5` threshold return the diff-bearing diagnostic
labeled with the 1-based best line, otherwise the no-similar-text
diagnostic. -/
def notFoundMessage (old content : List Char) (p : RawPath) : EditOutcome :=
  let oldLines := splitLinesKeepEnds old
  let lines := splitLinesKeepEnds content
  let best := simScan oldLines lines
  if (1 : ℚ) / 2 < best.1 then
    EditOutcome.noMatchDiff p best.1 (best.2 + 1) oldLines
      (simWindow oldLines lines best.2)
  else
    EditOutcome.noMatchNoSimilar p

/-- Body of `ReadFileTool.execute` (the code inside its `try`): resolve,
check existence and file-ness, return the content. -/
def readBody (env : Env) (ws allowed : Option AbsPath) (fs : FS)
    (p : RawPath) : Except PyExc ReadOutcome :=
  match resolvePath env p ws allowed with
  | Except.error e => Except.error (PyExc.permissionError e)
  | Except.ok fp =>
    match fsLookup fs fp with
    | none => Except.ok (ReadOutcome.notFound p)
    | some Node.dir => Except.ok (ReadOutcome.notAFile p)
    | some (Node.file c) => Except.ok (ReadOutcome.content c)

/-- `ReadFileTool.execute`: the body wrapped in
`except PermissionError` / `except Exception`, each converting the
exception into an error result; the `Except` layer records whether an
exception escapes the wrapper (none ever does). -/
def readExecute (env : Env) (ws allowed : Option AbsPath) (fs : FS)
    (p : RawPath) : Except PyExc ReadOutcome :=
  match readBody env ws allowed fs p with
  | Except.ok r => Except.ok r
  | Except.error (PyExc.permissionError e) => Except.ok (ReadOutcome.errPerm e)
  | Except.error e => Except.ok (ReadOutcome.errOther e)

/-- Body of `WriteFileTool.execute`: resolve, create parents, overwrite.
Writing over an existing directory node raises (as `write_text` does);
parent directories are implicit in the association-list filesystem. -/
def writeBody (env : Env) (ws allowed : Option AbsPath) (fs : FS)
    (p : RawPath) (content : List Char) : Except PyExc (WriteOutcome × FS) :=
  match resolvePath env p ws allowed with
  | Except.error e => Except.error (PyExc.permissionError e)
  | Except.ok fp =>
    match fsLookup fs fp with
    | some Node.dir => Except.error (PyExc.isADirectoryError fp)
    | _ =>
      Except.ok (WriteOutcome.wrote content.length fp,
        fsInsert fs fp (Node.file content))

/-- `WriteFileTool.execute`: body plus the two `except` clauses; a caught
exception leaves the filesystem unchanged. -/
def writeExecute (env : Env) (ws allowed : Option AbsPath) (fs : FS)
    (p : RawPath) (content : List Char) : Except PyExc (WriteOutcome × FS) :=
  match writeBody env ws allowed fs p content with
  | Except.ok r => Except.ok r
  | Except.error (PyExc.permissionError e) =>
    Except.ok (WriteOutcome.errPerm e, fs)
  | Except.error e => Except.ok (WriteOutcome.errOther e, fs)

/-- Body of `EditFileTool.execute`: resolve, check existence, read, then
the not-found / ambiguity / replace cascade.  Reading a directory raises
`IsADirectoryError` (the code checks only `exists()`, not `is_file()`). -/
def editBody (env : Env) (ws allowed : Option AbsPath) (fs : FS)
    (p : RawPath) (old new : List Char) : Except PyExc (EditOutcome × FS) :=
  match resolvePath env p ws allowed with
  | Except.error e => Except.error (PyExc.permissionError e)
  | Except.ok fp =>
    match fsLookup fs fp with
    | none => Except.ok (EditOutcome.fileNotFound p, fs)
    | some Node.dir => Except.error (PyExc.isADirectoryError fp)
    | some (Node.file content) =>
      if occursIn old content = false then
        Except.ok (notFoundMessage old content p, fs)
      else if 1 < countOcc content old then
        Except.ok (EditOutcome.ambiguous (countOcc content old), fs)
      else
        Except.ok (EditOutcome.edited fp,
          fsInsert fs fp (Node.file (replaceOne content old new)))

/-- `EditFileTool.execute`: body plus the two `except` clauses. -/
def editExecute (env : Env) (ws allowed : Option AbsPath) (fs : FS)
    (p : RawPath) (old new : List Char) : Except PyExc (EditOutcome × FS) :=
  match editBody env ws allowed fs p old new with
  | Except.ok r => Except.ok r
  | Except.error (PyExc.permissionError e) =>
    Except.ok (EditOutcome.errPerm e, fs)
  | Except.error e => Except.ok (EditOutcome.errOther e, fs)

/-- The `(name, is_dir)` entry a filesystem node contributes to a listing
of directory `p`, when it is an immediate child of `p`. -/
def childEntry (p : AbsPath) (e : AbsPath × Node) : Option (String × Bool) :=
  match e.1.comps.getLast? with
  | none => none
  | some nm =>
    if e.1.comps.dropLast = p.comps then some (nm, e.2 = Node.dir) else none

/-- Insert an entry into a name-sorted listing (Python `sorted` orders
`iterdir` results by name). -/
def insertByName (x : String × Bool) : List (String × Bool) → List (String × Bool)
  | [] => [x]
  | y :: ys => if x.1 ≤ y.1 then x :: y :: ys else y :: insertByName x ys

/-- Sort listing entries by name. -/
def sortByName (l : List (String × Bool)) : List (String × Bool) :=
  l.foldr insertByName []

/-- The sorted, duplicate-free children of directory `p` in `fs`. -/
def sortedChildren (fs : FS) (p : AbsPath) : List (String × Bool) :=
  sortByName ((fs.filterMap (childEntry p)).dedup)

/-- Body of `ListDirTool.execute`: resolve, check existence and
directory-ness, enumerate sorted children, with the explicit
empty-directory marker. -/
def listBody (env : Env) (ws allowed : Option AbsPath) (fs : FS)
    (p : RawPath) : Except PyExc ListOutcome :=
  match resolvePath env p ws allowed with
  | Except.error e => Except.error (PyExc.permissionError e)
  | Except.ok fp =>
    match fsLookup fs fp with
    | none => Except.ok (ListOutcome.notFound p)
    | some (Node.file _) => Except.ok (ListOutcome.notADir p)
    | some Node.dir =>
      let items := sortedChildren fs fp
      if items.isEmpty then Except.ok (ListOutcome.emptyDir p)
      else Except.ok (ListOutcome.entries items)

/-- `ListDirTool.execute`: body plus the two `except` clauses. -/
def listExecute (env : Env) (ws allowed : Option AbsPath) (fs : FS)
    (p : RawPath) : Except PyExc ListOutcome :=
  match listBody env ws allowed fs p with
  | Except.ok r => Except.ok r
  | Except.error (PyExc.permissionError e) => Except.ok (ListOutcome.errPerm e)
  | Except.error e => Except.ok (ListOutcome.errOther e)

/-- UTF-8 byte length of a text (what `write_text(..., encoding="utf-8")`
actually puts on disk). -/
def utf8Len (s : List Char) : Nat :=
  (s.map Char.utf8Size).sum

/-- Following the claim's wording ("content contains oldText exactly `n`
times"): the number of positions of the content at which `oldText`
occurs, occurrences allowed to overlap.  Defined from the claim, to be
compared against the code's non-overlapping `str.count`. -/
def specOccurrenceCount (s pat : List Char) : Nat :=
  ((List.range (s.length + 1)).filter fun i => pat.isPrefixOf (s.drop i)).length

/-- Whether `r` is `b` itself or a descendant of `b` (component-wise
prefix, the test `Path.relative_to` performs on absolute paths). -/
def isWithin (r b : AbsPath) : Bool :=
  b.comps.isPrefixOf r.comps

/-- A fixed ambient environment for the concrete instances below. -/
def envD : Env :=
  ⟨⟨["home", "user"]⟩, ⟨["cwdir"]⟩⟩

/-! ### Helper lemmas -/

/-- Components produced by `normAux` never include `.` or `..` when the
accumulator has none. -/
theorem normAux_no_dots (l : List String) :
    ∀ acc, (∀ x ∈ acc, x ≠ "." ∧ x ≠ "..") →
      ∀ x ∈ normAux acc l, x ≠ "." ∧ x ≠ ".." := by
  induction l with
  | nil => intro acc h x hx; exact h x hx
  | cons c rest ih =>
    intro acc h x hx
    unfold normAux at hx
    by_cases h1 : c = "."
    · simp only [h1, if_pos rfl] at hx
      exact ih acc h x hx
    · by_cases h2 : c = ".."
      · simp only [h1, h2, if_neg, if_pos rfl, ite_false] at hx
        exact ih acc.dropLast (fun y hy => h y (List.dropLast_subset _ hy)) x hx
      · simp only [h1, h2, ite_false] at hx
        refine ih (acc ++ [c]) ?_ x hx
        intro y hy
        rcases List.mem_append.mp hy with hy | hy
        · exact h y hy
        · simp only [List.mem_singleton] at hy
          subst hy; exact ⟨h1, h2⟩

/-- On a component list free of `.` and `..`, `normAux` just appends. -/
theorem normAux_fixed (l : List String) :
    (∀ x ∈ l, x ≠ "." ∧ x ≠ "..") → ∀ acc, normAux acc l = acc ++ l := by
  induction l with
  | nil => intro _ acc; simp [normAux]
  | cons c rest ih =>
    intro h acc
    have hc := h c (by simp)
    unfold normAux
    rw [if_neg hc.1, if_neg hc.2, ih (fun x hx => h x (by simp [hx]))]
    simp

/-- Normalization is idempotent. -/
theorem normComps_idem (l : List String) :
    normComps (normComps l) = normComps l := by
  have h := normAux_no_dots l [] (by simp)
  unfold normComps
  rw [normAux_fixed (normAux [] l) h []]
  simp

/-- A successfully resolved path is already normalized. -/
theorem resolvePath_ok_normalized (env : Env) (raw : RawPath)
    (ws allowed : Option AbsPath) (fp : AbsPath)
    (h : resolvePath env raw ws allowed = Except.ok fp) :
    normComps fp.comps = fp.comps := by
  unfold resolvePath at h
  cases allowed with
  | none =>
    simp only [Except.ok.injEq] at h
    subst h
    exact normComps_idem _
  | some b =>
    simp only at h
    split at h
    · simp only [Except.ok.injEq] at h
      subst h
      exact normComps_idem _
    · exact absurd h (by simp)

/-- Resolving the absolute path a successful resolution produced gives
back the same path under the same configuration. -/
theorem resolvePath_abs_self (env : Env) (raw : RawPath)
    (ws allowed : Option AbsPath) (fp : AbsPath)
    (h : resolvePath env raw ws allowed = Except.ok fp) :
    resolvePath env (RawPath.abs fp.comps) ws allowed = Except.ok fp := by
  have hn := resolvePath_ok_normalized env raw ws allowed fp h
  unfold resolvePath at h ⊢
  cases allowed with
  | none =>
    simp only [expandAndJoin, hn]
  | some b =>
    simp only at h ⊢
    split at h
    case isTrue hpre =>
      simp only [Except.ok.injEq] at h
      have hc : fp.comps = normComps (expandAndJoin env raw ws) := by
        rw [← h]
      simp only [expandAndJoin, hn]
      rw [if_pos (by rw [hc]; exact hpre)]
    case isFalse => exact absurd h (by simp)

/-- With enough fuel, the non-empty-pattern scan vanishes exactly when
the pattern does not occur. -/
theorem countOccPos_zero_iff (p : Char) (ps : List Char) :
    ∀ fuel s, List.length s ≤ fuel →
      (countOccPos (p :: ps) fuel s = 0 ↔ occursIn (p :: ps) s = false) := by
  intro fuel
  induction fuel with
  | zero =>
    intro s hs
    have : s = [] := List.eq_nil_of_length_eq_zero (Nat.le_zero.mp hs)
    subst this
    simp [countOccPos, occursIn, List.isEmpty]
  | succ m ih =>
    intro s hs
    cases s with
    | nil => simp [countOccPos, occursIn, List.isEmpty]
    | cons c rest =>
      unfold countOccPos occursIn
      by_cases hp : (p :: ps).isPrefixOf (c :: rest)
      · simp [hp]
      · simp only [hp, if_neg, Bool.false_or, ite_false]
        exact ih rest (by simpa using Nat.le_of_succ_le_succ hs)

/-- `countOcc` is zero exactly when the pattern does not occur. -/
theorem countOcc_zero_iff (s pat : List Char) :
    countOcc s pat = 0 ↔ occursIn pat s = false := by
  cases pat with
  | nil =>
    constructor
    · intro h; simp [countOcc] at h
    · intro h
      exfalso
      cases s <;> simp [occursIn, List.isPrefixOf] at h
  | cons p ps =>
    exact countOccPos_zero_iff p ps s.length s (le_refl _)

/-- If the pattern occurs, the text splits around its leftmost occurrence
and `replaceOne` rewrites exactly that occurrence. -/
theorem replaceOne_decomp (pat s new : List Char)
    (h : occursIn pat s = true) :
    ∃ pre suf, s = pre ++ pat ++ suf ∧
      replaceOne s pat new = pre ++ new ++ suf := by
  induction s with
  | nil =>
    have hp : pat = [] := by
      cases pat with
      | nil => rfl
      | cons q qs => simp [occursIn, List.isEmpty] at h
    subst hp
    exact ⟨[], [], by simp, by simp [replaceOne]⟩
  | cons c rest ih =>
    cases pat with
    | nil => exact ⟨[], c :: rest, by simp, by simp [replaceOne]⟩
    | cons p ps =>
      by_cases hp : (p :: ps).isPrefixOf (c :: rest)
      · have hpre : (p :: ps) <+: (c :: rest) :=
          List.isPrefixOf_iff_prefix.mp hp
        obtain ⟨t, ht⟩ := hpre
        refine ⟨[], t, by simp [← ht], ?_⟩
        have hrest : rest = ps ++ t := by
          have := ht
          simp only [List.cons_append, List.cons.injEq] at this
          exact this.2.symm
        unfold replaceOne
        rw [if_pos hp, hrest]
        simp [List.drop_left]
      · unfold occursIn at h
        simp only [Bool.or_eq_true] at h
        rcases h with h | h
        · exact absurd h hp
        obtain ⟨pre, suf, hs, hr⟩ := ih h
        refine ⟨c :: pre, suf, by simp [hs], ?_⟩
        unfold replaceOne
        rw [if_neg hp, hr]
        simp

/-- Every scanned index scores at most the scan's best ratio. -/
theorem bestScan_le (f : Nat → ℚ) (n : Nat) :
    ∀ i < n, f i ≤ (bestScan f n).1 := by
  induction n with
  | zero => intro i hi; omega
  | succ m ih =>
    intro i hi
    unfold bestScan
    by_cases hlt : (bestScan f m).1 < f m
    · rw [if_pos hlt]
      rcases Nat.lt_succ_iff_lt_or_eq.mp hi with hi | hi
      · exact le_of_lt (lt_of_le_of_lt (ih i hi) hlt)
      · subst hi; exact le_refl _
    · rw [if_neg hlt]
      rcases Nat.lt_succ_iff_lt_or_eq.mp hi with hi | hi
      · exact ih i hi
      · subst hi; exact le_of_not_lt hlt

/-- The scan's best ratio is nonnegative (it starts at `0.0`). -/
theorem bestScan_fst_nonneg (f : Nat → ℚ) (n : Nat) :
    0 ≤ (bestScan f n).1 := by
  induction n with
  | zero => simp [bestScan]
  | succ m ih =>
    unfold bestScan
    by_cases hlt : (bestScan f m).1 < f m
    · rw [if_pos hlt]; exact le_of_lt (lt_of_le_of_lt ih hlt)
    · rw [if_neg hlt]; exact ih

/-- The scan's best index is an examined index (or the initial `0`). -/
theorem bestScan_snd_lt (f : Nat → ℚ) (n : Nat) :
    (bestScan f n).2 = 0 ∨ (bestScan f n).2 < n := by
  induction n with
  | zero => simp [bestScan]
  | succ m ih =>
    unfold bestScan
    by_cases hlt : (bestScan f m).1 < f m
    · rw [if_pos hlt]; right; omega
    · rw [if_neg hlt]
      rcases ih with h | h
      · left; exact h
      · right; omega

/-- The best ratio is attained at the best index, unless nothing ever
improved on the initial `(0.0, 0)` pair. -/
theorem bestScan_fst_eq (f : Nat → ℚ) (n : Nat) :
    (bestScan f n).1 = f (bestScan f n).2 ∨
      ((bestScan f n).1 = 0 ∧ (bestScan f n).2 = 0) := by
  induction n with
  | zero => right; simp [bestScan]
  | succ m ih =>
    unfold bestScan
    by_cases hlt : (bestScan f m).1 < f m
    · rw [if_pos hlt]; left; rfl
    · rw [if_neg hlt]; exact ih

/-- Every index before the best one scores strictly below the best ratio:
ties resolve to the earliest window. -/
theorem bestScan_earlier (f : Nat → ℚ) (n : Nat) :
    ∀ i < (bestScan f n).2, f i < (bestScan f n).1 := by
  induction n with
  | zero => intro i hi; simp [bestScan] at hi
  | succ m ih =>
    intro i hi
    unfold bestScan at hi ⊢
    by_cases hlt : (bestScan f m).1 < f m
    · rw [if_pos hlt] at hi ⊢
      exact lt_of_le_of_lt (bestScan_le f m i hi) hlt
    · rw [if_neg hlt] at hi ⊢
      exact ih i hi

/-- Similarity ratios are nonnegative. -/
theorem ratioQ_nonneg (a b : List (List Char)) : 0 ≤ ratioQ a b := by
  unfold ratioQ
  split
  · norm_num
  · apply div_nonneg
    · positivity
    · positivity

/-- A one-candidate scan keeps index `0`, with its ratio when positive. -/
theorem bestScan_one (f : Nat → ℚ) :
    bestScan f 1 = if 0 < f 0 then (f 0, 0) else (0, 0) :=
  rfl

/-! ### Claims -/

/-- C1: if resolution against a configured allowed directory `B` succeeds,
the result is the normalized `B` or a descendant of it; if the normalized
result lies outside `B`, resolution fails with the `PermissionError`
naming the offending path and the boundary, and each operation returns
that error leaving the filesystem untouched. -/
theorem claim_C1 (env : Env) (raw : RawPath) (ws : Option AbsPath)
    (B : AbsPath) (fs : FS) (o nw c : List Char) :
    (∀ r, resolvePath env raw ws (some B) = Except.ok r →
      isWithin r ⟨normComps B.comps⟩ = true) ∧
    (∀ e, resolvePath env raw ws (some B) = Except.error e →
      e = PermError.mk raw B ∧
      editExecute env ws (some B) fs raw o nw =
        Except.ok (EditOutcome.errPerm e, fs) ∧
      writeExecute env ws (some B) fs raw c =
        Except.ok (WriteOutcome.errPerm e, fs) ∧
      readExecute env ws (some B) fs raw =
        Except.ok (ReadOutcome.errPerm e) ∧
      listExecute env ws (some B) fs raw =
        Except.ok (ListOutcome.errPerm e)) := by
  constructor
  · intro r hr
    unfold resolvePath at hr
    simp only at hr
    split at hr
    case isTrue hpre =>
      simp only [Except.ok.injEq] at hr
      subst hr
      simpa [isWithin] using hpre
    case isFalse => exact absurd hr (by simp)
  · intro e he
    have hsplit : e = PermError.mk raw B := by
      unfold resolvePath at he
      simp only at he
      split at he
      · exact absurd he (by simp)
      · simp only [Except.error.injEq] at he
        exact he.symm
    refine ⟨hsplit, ?_, ?_, ?_, ?_⟩ <;>
      simp [editExecute, editBody, writeExecute, writeBody,
        readExecute, readBody, listExecute, listBody, he]

/-- C1 witness: a concrete in-boundary resolution whose result the
theorem places inside the boundary. -/
theorem claim_C1_witness :
    isWithin ⟨["ws", "f"]⟩ ⟨normComps ["ws"]⟩ = true :=
  (claim_C1 envD (RawPath.abs ["ws", "f"]) none ⟨["ws"]⟩ [] [] [] []).1
    ⟨["ws", "f"]⟩ (by rfl)

/-- C9: a `~`-rooted path is expanded to the home directory before the
workspace join and the boundary check: its resolution is independent of
the workspace root, a successful result is exactly the normalized
home-joined path, and when that expanded path lies outside the allowed
directory resolution fails with the permission error naming both. -/
theorem claim_C9 (env : Env) (cs : List String) (ws : Option AbsPath)
    (B : AbsPath) :
    resolvePath env (RawPath.home cs) ws (some B) =
      resolvePath env (RawPath.home cs) none (some B) ∧
    (∀ r, resolvePath env (RawPath.home cs) ws (some B) = Except.ok r →
      r = ⟨normComps (env.home.comps ++ cs)⟩) ∧
    (isWithin ⟨normComps (env.home.comps ++ cs)⟩ ⟨normComps B.comps⟩ = false →
      resolvePath env (RawPath.home cs) ws (some B) =
        Except.error ⟨RawPath.home cs, B⟩) := by
  refine ⟨rfl, ?_, ?_⟩
  · intro r hr
    unfold resolvePath at hr
    simp only at hr
    split at hr
    · simp only [Except.ok.injEq] at hr
      exact hr.symm
    · exact absurd hr (by simp)
  · intro hout
    have hb : (normComps B.comps).isPrefixOf
        (normComps (env.home.comps ++ cs)) = false := by
      simpa [isWithin] using hout
    unfold resolvePath
    simp only
    split
    case isTrue hpre =>
      exfalso
      rw [show expandAndJoin env (RawPath.home cs) ws =
        env.home.comps ++ cs from rfl, hb] at hpre
      exact Bool.false_ne_true hpre
    case isFalse => rfl

/-- C9 witness: `~/x` under workspace `ws` with boundary `ws` resolves to
the home directory, not the workspace, and is rejected. -/
theorem claim_C9_witness :
    resolvePath envD (RawPath.home ["x"]) (some ⟨["ws"]⟩) (some ⟨["ws"]⟩) =
      Except.error ⟨RawPath.home ["x"], ⟨["ws"]⟩⟩ :=
  (claim_C9 envD ["x"] (some ⟨["ws"]⟩) ⟨["ws"]⟩).2.2 (by decide)

/-- C8: no operation propagates an exception: for every input each of
edit, write, read and list returns an ok (caught-and-converted) result;
the `except PermissionError` / `except Exception` pair converts every
exception the bodies raise. -/
theorem claim_C8 (env : Env) (ws allowed : Option AbsPath) (fs : FS)
    (p : RawPath) (old nw c : List Char) :
    (editExecute env ws allowed fs p old nw).isOk = true ∧
    (writeExecute env ws allowed fs p c).isOk = true ∧
    (readExecute env ws allowed fs p).isOk = true ∧
    (listExecute env ws allowed fs p).isOk = true := by
  refine ⟨?_, ?_, ?_, ?_⟩
  · cases h : editBody env ws allowed fs p old nw with
    | ok r => simp [editExecute, h, Except.isOk, Except.toBool]
    | error e => cases e <;> simp [editExecute, h, Except.isOk, Except.toBool]
  · cases h : writeBody env ws allowed fs p c with
    | ok r => simp [writeExecute, h, Except.isOk, Except.toBool]
    | error e => cases e <;> simp [writeExecute, h, Except.isOk, Except.toBool]
  · cases h : readBody env ws allowed fs p with
    | ok r => simp [readExecute, h, Except.isOk, Except.toBool]
    | error e => cases e <;> simp [readExecute, h, Except.isOk, Except.toBool]
  · cases h : listBody env ws allowed fs p with
    | ok r => simp [listExecute, h, Except.isOk, Except.toBool]
    | error e => cases e <;> simp [listExecute, h, Except.isOk, Except.toBool]

/-- C2 counterexample: in content `"aaa"` the text `"aa"` occurs at two
positions (n = 2), yet the edit is applied — Python's non-overlapping
`count` sees one occurrence — changing the file to `"ba"`, against the
claim that with n ≠ 1 the edit never applies and the file is unchanged. -/
theorem claim_C2_cex :
    specOccurrenceCount "aaa".toList "aa".toList = 2 ∧
    editExecute envD none none [(⟨["w", "a"]⟩, Node.file "aaa".toList)]
        (RawPath.abs ["w", "a"]) "aa".toList "b".toList =
      Except.ok (EditOutcome.edited ⟨["w", "a"]⟩,
        (⟨["w", "a"]⟩, Node.file "ba".toList) ::
          [(⟨["w", "a"]⟩, Node.file "aaa".toList)]) :=
  ⟨by decide, by rfl⟩

/-- C2 (amended): with `n` counted as Python `str.count` counts — the
non-overlapping occurrences scanned from the left, each match consuming
its text — `edit` applies a change iff `n == 1`: `n > 1` returns the
ambiguous-match result naming `n` and leaves the file unchanged; `n == 0`
returns the no-match diagnostic and leaves the file unchanged; `n == 1`
replaces exactly the leftmost occurrence, every other character of the
file unchanged. -/
theorem claim_C2_amended (env : Env) (ws allowed : Option AbsPath)
    (fs : FS) (raw : RawPath) (old nw : List Char) (fp : AbsPath)
    (content : List Char)
    (hr : resolvePath env raw ws allowed = Except.ok fp)
    (hf : fsLookup fs fp = some (Node.file content)) :
    (1 < countOcc content old →
      editExecute env ws allowed fs raw old nw =
        Except.ok (EditOutcome.ambiguous (countOcc content old), fs)) ∧
    (countOcc content old = 0 →
      editExecute env ws allowed fs raw old nw =
        Except.ok (notFoundMessage old content raw, fs)) ∧
    (countOcc content old = 1 →
      ∃ pre suf, content = pre ++ old ++ suf ∧
        editExecute env ws allowed fs raw old nw =
          Except.ok (EditOutcome.edited fp,
            fsInsert fs fp (Node.file (pre ++ nw ++ suf)))) := by
  refine ⟨?_, ?_, ?_⟩
  · intro hn
    have hocc : occursIn old content = true := by
      rcases Bool.eq_false_or_eq_true (occursIn old content) with h | h
      · exact h
      · exact absurd ((countOcc_zero_iff content old).mpr h) (by omega)
    simp [editExecute, editBody, hr, hf, hocc, hn]
  · intro hn
    have hocc : occursIn old content = false :=
      (countOcc_zero_iff content old).mp hn
    simp [editExecute, editBody, hr, hf, hocc]
  · intro hn
    have hocc : occursIn old content = true := by
      rcases Bool.eq_false_or_eq_true (occursIn old content) with h | h
      · exact h
      · exact absurd ((countOcc_zero_iff content old).mpr h) (by omega)
    obtain ⟨pre, suf, hs, hrep⟩ := replaceOne_decomp old content nw hocc
    refine ⟨pre, suf, hs, ?_⟩
    simp [editExecute, editBody, hr, hf, hocc, hn, hrep]

/-- C2 witness: a concrete ambiguous edit — `"a"` occurs twice in
`"aa"` — is rejected with count 2 and an unchanged file. -/
theorem claim_C2_amended_witness :
    editExecute envD none none [(⟨["w"]⟩, Node.file "aa".toList)]
        (RawPath.abs ["w"]) "a".toList "b".toList =
      Except.ok (EditOutcome.ambiguous (countOcc "aa".toList "a".toList),
        [(⟨["w"]⟩, Node.file "aa".toList)]) :=
  (claim_C2_amended envD none none [(⟨["w"]⟩, Node.file "aa".toList)]
      (RawPath.abs ["w"]) "a".toList "b".toList ⟨["w"]⟩ "aa".toList
      (by rfl) (by rfl)).1 (by decide)

/-- C10: editing with an empty `oldText` never reaches the not-found
branch (the empty string occurs in every content): on non-empty content
of `k` characters the ambiguous-match result reports `k + 1` occurrences
and the file is unchanged; on empty content the edit succeeds and the
file becomes exactly `newText`. -/
theorem claim_C10 (env : Env) (ws allowed : Option AbsPath) (fs : FS)
    (raw : RawPath) (nw : List Char) (fp : AbsPath) (content : List Char)
    (hr : resolvePath env raw ws allowed = Except.ok fp)
    (hf : fsLookup fs fp = some (Node.file content)) :
    (content ≠ [] →
      editExecute env ws allowed fs raw [] nw =
        Except.ok (EditOutcome.ambiguous (content.length + 1), fs)) ∧
    (content = [] →
      editExecute env ws allowed fs raw [] nw =
        Except.ok (EditOutcome.edited fp, fsInsert fs fp (Node.file nw))) := by
  have hocc : occursIn ([] : List Char) content = true := by
    cases content <;> simp [occursIn, List.isPrefixOf, List.isEmpty]
  have hcnt : countOcc content ([] : List Char) = content.length + 1 := by
    simp [countOcc]
  constructor
  · intro hne
    have hlen : 0 < content.length := List.length_pos.mpr hne
    have h1 : 1 < countOcc content ([] : List Char) := by omega
    simp [editExecute, editBody, hr, hf, hocc, hcnt, h1, hlen]
  · intro hemp
    subst hemp
    simp [editExecute, editBody, hr, hf, hocc, hcnt, replaceOne]

/-- C10 witness: on the one-character file `"x"` the empty-oldText edit
reports 2 occurrences and changes nothing. -/
theorem claim_C10_witness :
    editExecute envD none none [(⟨["w"]⟩, Node.file "x".toList)]
        (RawPath.abs ["w"]) [] "y".toList =
      Except.ok (EditOutcome.ambiguous (("x".toList).length + 1),
        [(⟨["w"]⟩, Node.file "x".toList)]) :=
  (claim_C10 envD none none [(⟨["w"]⟩, Node.file "x".toList)]
      (RawPath.abs ["w"]) "y".toList ⟨["w"]⟩ "x".toList
      (by rfl) (by rfl)).1 (by decide)

/-- C5: the success message of `write` reports `len(content)` — the
number of characters — although it labels the number "bytes" and the
UTF-8 encoding actually written has a different byte length on non-ASCII
content: writing `"é"` reports 1 while 2 bytes reach the disk. -/
theorem claim_C5_bug :
    writeExecute envD none none [] (RawPath.abs ["f"]) "é".toList =
      Except.ok (WriteOutcome.wrote 1 ⟨["f"]⟩,
        [(⟨["f"]⟩, Node.file "é".toList)]) ∧
    utf8Len "é".toList = 2 ∧ (1 : Nat) ≠ 2 :=
  ⟨by rfl, by rfl, by decide⟩

/-- C7: write/read round trip — if a write succeeds, reading the resolved
path the write reported returns exactly the written text. -/
theorem claim_C7 (env : Env) (ws allowed : Option AbsPath) (fs fs2 : FS)
    (raw : RawPath) (c : List Char) (n : Nat) (fp : AbsPath)
    (h : writeExecute env ws allowed fs raw c =
      Except.ok (WriteOutcome.wrote n fp, fs2)) :
    readExecute env ws allowed fs2 (RawPath.abs fp.comps) =
      Except.ok (ReadOutcome.content c) := by
  unfold writeExecute writeBody at h
  cases hr : resolvePath env raw ws allowed with
  | error e =>
    rw [hr] at h
    simp at h
  | ok fp0 =>
    rw [hr] at h
    cases hl : fsLookup fs fp0 with
    | none =>
      simp only [hl, Except.ok.injEq, Prod.mk.injEq,
        WriteOutcome.wrote.injEq] at h
      obtain ⟨⟨_, hfp⟩, hfs⟩ := h
      subst hfp
      subst hfs
      have hres := resolvePath_abs_self env raw ws allowed fp0 hr
      simp [readExecute, readBody, hres, fsInsert, fsLookup]
    | some node =>
      cases node with
      | file c0 =>
        simp only [hl, Except.ok.injEq, Prod.mk.injEq,
          WriteOutcome.wrote.injEq] at h
        obtain ⟨⟨_, hfp⟩, hfs⟩ := h
        subst hfp
        subst hfs
        have hres := resolvePath_abs_self env raw ws allowed fp0 hr
        simp [readExecute, readBody, hres, fsInsert, fsLookup]
      | dir =>
        simp [hl] at h

/-- C7 witness: a concrete write of `"hi"` whose reported path reads back
as `"hi"`. -/
theorem claim_C7_witness :
    readExecute envD none none
        [(⟨["f"]⟩, Node.file "hi".toList)] (RawPath.abs ["f"]) =
      Except.ok (ReadOutcome.content "hi".toList) :=
  claim_C7 envD none none [] [(⟨["f"]⟩, Node.file "hi".toList)]
    (RawPath.abs ["f"]) "hi".toList 2 ⟨["f"]⟩ (by rfl)

/-- C3: when the edit target is absent, the diagnostic carries the
unified-diff comparison of the `oldText` lines against the best window —
labeled with the 1-based start line `best_start + 1` and the best ratio —
exactly when that best ratio exceeds `0.5`; at `0.5` or below the
diagnostic states that no similar text was found and carries no diff. -/
theorem claim_C3 (old content : List Char) (raw : RawPath)
    (hno : occursIn old content = false) :
    ((1 : ℚ) / 2 <
        (simScan (splitLinesKeepEnds old) (splitLinesKeepEnds content)).1 →
      notFoundMessage old content raw =
        EditOutcome.noMatchDiff raw
          (simScan (splitLinesKeepEnds old) (splitLinesKeepEnds content)).1
          ((simScan (splitLinesKeepEnds old) (splitLinesKeepEnds content)).2 + 1)
          (splitLinesKeepEnds old)
          (simWindow (splitLinesKeepEnds old) (splitLinesKeepEnds content)
            (simScan (splitLinesKeepEnds old) (splitLinesKeepEnds content)).2)) ∧
    ((simScan (splitLinesKeepEnds old) (splitLinesKeepEnds content)).1 ≤
        (1 : ℚ) / 2 →
      notFoundMessage old content raw = EditOutcome.noMatchNoSimilar raw) := by
  constructor
  · intro h
    unfold notFoundMessage
    rw [if_pos h]
  · intro h
    unfold notFoundMessage
    rw [if_neg (not_lt.mpr h)]

/-- C3 witness: `oldText` sharing two of three lines with the file
scores 2/3 > 1/2 and yields the diff-bearing diagnostic for line 1. -/
theorem claim_C3_witness :
    notFoundMessage "ab\ncd\nX".toList "ab\ncd\nY\n".toList
        (RawPath.rel ["t"]) =
      EditOutcome.noMatchDiff (RawPath.rel ["t"])
        (simScan (splitLinesKeepEnds "ab\ncd\nX".toList)
          (splitLinesKeepEnds "ab\ncd\nY\n".toList)).1
        ((simScan (splitLinesKeepEnds "ab\ncd\nX".toList)
          (splitLinesKeepEnds "ab\ncd\nY\n".toList)).2 + 1)
        (splitLinesKeepEnds "ab\ncd\nX".toList)
        (simWindow (splitLinesKeepEnds "ab\ncd\nX".toList)
          (splitLinesKeepEnds "ab\ncd\nY\n".toList)
          (simScan (splitLinesKeepEnds "ab\ncd\nX".toList)
            (splitLinesKeepEnds "ab\ncd\nY\n".toList)).2) :=
by
  have hwin : simWindow (splitLinesKeepEnds "ab\ncd\nX".toList)
      (splitLinesKeepEnds "ab\ncd\nY\n".toList) 0 =
      splitLinesKeepEnds "ab\ncd\nY\n".toList := by decide
  have hms : matchedSize (splitLinesKeepEnds "ab\ncd\nX".toList)
      (splitLinesKeepEnds "ab\ncd\nY\n".toList) = 2 := by decide
  have hl1 : (splitLinesKeepEnds "ab\ncd\nX".toList).length = 3 := by decide
  have hl2 : (splitLinesKeepEnds "ab\ncd\nY\n".toList).length = 3 := by decide
  have hgt : (1 : ℚ) / 2 < ratioQ (splitLinesKeepEnds "ab\ncd\nX".toList)
      (splitLinesKeepEnds "ab\ncd\nY\n".toList) := by
    unfold ratioQ
    rw [hms, hl1, hl2]
    norm_num
  have hcand : simCandidates (splitLinesKeepEnds "ab\ncd\nX".toList)
      (splitLinesKeepEnds "ab\ncd\nY\n".toList) = 1 := by decide
  have hscan : simScan (splitLinesKeepEnds "ab\ncd\nX".toList)
      (splitLinesKeepEnds "ab\ncd\nY\n".toList) =
      (ratioQ (splitLinesKeepEnds "ab\ncd\nX".toList)
        (splitLinesKeepEnds "ab\ncd\nY\n".toList), 0) := by
    unfold simScan
    rw [hcand, bestScan_one, hwin]
    rw [if_pos (lt_trans (by norm_num : (0 : ℚ) < 1 / 2) hgt)]
  exact (claim_C3 "ab\ncd\nX".toList "ab\ncd\nY\n".toList
    (RawPath.rel ["t"]) (by decide)).1 (by rw [hscan]; exact hgt)

/-- C6: the similarity scan returns a window of maximal ratio over all
examined start indices, the index it returns is among the examined ones,
every earlier index scores strictly lower (ties resolve to the lowest
index), and — the function being pure — repeated invocation returns the
same pair. -/
theorem claim_C6 (old content : List Char) (ol ls : List (List Char))
    (hol : ol = splitLinesKeepEnds old) (hls : ls = splitLinesKeepEnds content) :
    (∀ i < simCandidates ol ls,
      ratioQ ol (simWindow ol ls i) ≤ (simScan ol ls).1) ∧
    ratioQ ol (simWindow ol ls (simScan ol ls).2) = (simScan ol ls).1 ∧
    (simScan ol ls).2 < simCandidates ol ls ∧
    (∀ i < (simScan ol ls).2,
      ratioQ ol (simWindow ol ls i) < (simScan ol ls).1) ∧
    simScan ol ls = simScan ol ls := by
  have hN : 0 < simCandidates ol ls :=
    Nat.lt_of_lt_of_le Nat.one_pos
      (Nat.le_max_left 1 (ls.length - ol.length + 1))
  have hscan : simScan ol ls =
      bestScan (fun i => ratioQ ol (simWindow ol ls i))
        (simCandidates ol ls) := rfl
  refine ⟨?_, ?_, ?_, ?_, rfl⟩
  · intro i hi
    rw [hscan]
    exact bestScan_le _ _ i hi
  · rw [hscan]
    rcases bestScan_fst_eq (fun i => ratioQ ol (simWindow ol ls i))
        (simCandidates ol ls) with h | ⟨h1, h2⟩
    · exact h.symm
    · have hle := bestScan_le (fun i => ratioQ ol (simWindow ol ls i))
        (simCandidates ol ls) 0 hN
      rw [h1] at hle
      have h0 : ratioQ ol (simWindow ol ls 0) = 0 :=
        le_antisymm hle (ratioQ_nonneg ol (simWindow ol ls 0))
      rw [h2, h0, h1]
  · rw [hscan]
    rcases bestScan_snd_lt (fun i => ratioQ ol (simWindow ol ls i))
        (simCandidates ol ls) with h | h
    · rw [h]
      exact hN
    · exact h
  · intro i hi
    rw [hscan] at hi ⊢
    exact bestScan_earlier _ _ i hi

/-- C6 witness: the scan maximality applied to the concrete three-line
example at its examined index `0`. -/
theorem claim_C6_witness :
    ratioQ (splitLinesKeepEnds "ab\ncd\nX".toList)
        (simWindow (splitLinesKeepEnds "ab\ncd\nX".toList)
          (splitLinesKeepEnds "ab\ncd\nY\n".toList) 0) ≤
      (simScan (splitLinesKeepEnds "ab\ncd\nX".toList)
        (splitLinesKeepEnds "ab\ncd\nY\n".toList)).1 :=
  (claim_C6 "ab\ncd\nX".toList "ab\ncd\nY\n".toList _ _ rfl rfl).1 0 (by decide)

/-- C4 counterexample: on the file `"Hello, world!\n"`, the edit with
`oldText = "Hello world!"` (missing comma) yields the no-similar-text
diagnostic with best ratio 0 — difflib compares whole lines atomically,
and the only line differs from the only `oldText` line — not, as claimed,
a diagnostic with ratio above 0.5 and a one-line diff. -/
theorem claim_C4_cex :
    (simScan (splitLinesKeepEnds "Hello world!".toList)
        (splitLinesKeepEnds "Hello, world!\n".toList)).1 = 0 ∧
    editExecute envD none none
        [(⟨["w", "h.txt"]⟩, Node.file "Hello, world!\n".toList)]
        (RawPath.abs ["w", "h.txt"]) "Hello world!".toList "Hi!".toList =
      Except.ok
        (EditOutcome.noMatchNoSimilar (RawPath.abs ["w", "h.txt"]),
          [(⟨["w", "h.txt"]⟩, Node.file "Hello, world!\n".toList)]) := by
  have hwin : simWindow (splitLinesKeepEnds "Hello world!".toList)
      (splitLinesKeepEnds "Hello, world!\n".toList) 0 =
      splitLinesKeepEnds "Hello, world!\n".toList := by decide
  have hms : matchedSize (splitLinesKeepEnds "Hello world!".toList)
      (splitLinesKeepEnds "Hello, world!\n".toList) = 0 := by decide
  have hl1 : (splitLinesKeepEnds "Hello world!".toList).length = 1 := by decide
  have hl2 : (splitLinesKeepEnds "Hello, world!\n".toList).length = 1 := by
    decide
  have hr0 : ratioQ (splitLinesKeepEnds "Hello world!".toList)
      (splitLinesKeepEnds "Hello, world!\n".toList) = 0 := by
    unfold ratioQ
    rw [hms, hl1, hl2]
    norm_num
  have hcand : simCandidates (splitLinesKeepEnds "Hello world!".toList)
      (splitLinesKeepEnds "Hello, world!\n".toList) = 1 := by decide
  have hscan : simScan (splitLinesKeepEnds "Hello world!".toList)
      (splitLinesKeepEnds "Hello, world!\n".toList) = (0, 0) := by
    unfold simScan
    rw [hcand, bestScan_one, hwin, hr0]
    simp
  constructor
  · rw [hscan]
  · have hmsg : notFoundMessage "Hello world!".toList
        "Hello, world!\n".toList (RawPath.abs ["w", "h.txt"]) =
        EditOutcome.noMatchNoSimilar (RawPath.abs ["w", "h.txt"]) := by
      simp only [notFoundMessage]
      rw [hscan]
      norm_num
    have hstep : editExecute envD none none
        [(⟨["w", "h.txt"]⟩, Node.file "Hello, world!\n".toList)]
        (RawPath.abs ["w", "h.txt"]) "Hello world!".toList "Hi!".toList =
        Except.ok (notFoundMessage "Hello world!".toList
            "Hello, world!\n".toList (RawPath.abs ["w", "h.txt"]),
          [(⟨["w", "h.txt"]⟩, Node.file "Hello, world!\n".toList)]) := by rfl
    rw [hstep, hmsg]

/-- C4 (amended): on that input the best line-atomic similarity ratio is
0, so — being at most 0.5 — the edit returns the no-match diagnostic that
states no similar text was found, with no diff and no line reference. -/
theorem claim_C4_amended :
    (simScan (splitLinesKeepEnds "Hello world!".toList)
        (splitLinesKeepEnds "Hello, world!\n".toList)).1 ≤ (1 : ℚ) / 2 ∧
    notFoundMessage "Hello world!".toList "Hello, world!\n".toList
        (RawPath.abs ["w", "h.txt"]) =
      EditOutcome.noMatchNoSimilar (RawPath.abs ["w", "h.txt"]) := by
  have hwin : simWindow (splitLinesKeepEnds "Hello world!".toList)
      (splitLinesKeepEnds "Hello, world!\n".toList) 0 =
      splitLinesKeepEnds "Hello, world!\n".toList := by decide
  have hms : matchedSize (splitLinesKeepEnds "Hello world!".toList)
      (splitLinesKeepEnds "Hello, world!\n".toList) = 0 := by decide
  have hl1 : (splitLinesKeepEnds "Hello world!".toList).length = 1 := by decide
  have hl2 : (splitLinesKeepEnds "Hello, world!\n".toList).length = 1 := by
    decide
  have hr0 : ratioQ (splitLinesKeepEnds "Hello world!".toList)
      (splitLinesKeepEnds "Hello, world!\n".toList) = 0 := by
    unfold ratioQ
    rw [hms, hl1, hl2]
    norm_num
  have hcand : simCandidates (splitLinesKeepEnds "Hello world!".toList)
      (splitLinesKeepEnds "Hello, world!\n".toList) = 1 := by decide
  have hscan : simScan (splitLinesKeepEnds "Hello world!".toList)
      (splitLinesKeepEnds "Hello, world!\n".toList) = (0, 0) := by
    unfold simScan
    rw [hcand, bestScan_one, hwin, hr0]
    simp
  constructor
  · rw [hscan]
    norm_num
  · simp only [notFoundMessage]
    rw [hscan]
    norm_num
